import Mathlib

/-!
Verification development for the channel decomposition module
(`router/rtrDcmpose.c`).  The tile plane is embedded shallowly: a plane is a
list of axis-aligned tiles, each carrying its rectangle, a body bit
(`true` = cell/obstruction tile, `false` = space tile) and the four
per-corner edge-validity flags kept in the `ti_client` field of the tile.
Primitives of the corner-stitched tile library (point location, split,
join) are external collaborators of this module and are modelled from the
specification where noted.
-/

namespace Rtr

/-- A point of the integer plane, mirroring `Point` with `p_x`/`p_y`. -/
structure Pt where
  p_x : Int
  p_y : Int
deriving DecidableEq, Repr

/-- A rectangle, mirroring `Rect` with its four sides. -/
structure Rect where
  r_xbot : Int
  r_ybot : Int
  r_xtop : Int
  r_ytop : Int
deriving DecidableEq, Repr

/-- The four per-corner edge-validity flags kept in the `ti_client` field
of a space tile (one boolean per corner: NW, NE, SW, SE). -/
structure Flags where
  nw : Bool
  ne : Bool
  sw : Bool
  se : Bool
deriving DecidableEq, Repr

/-- The four corner selectors `rtrNW`, `rtrNE`, `rtrSW`, `rtrSE`. -/
inductive Corner where
  | NW
  | NE
  | SW
  | SE
deriving DecidableEq, Repr

/-- A tile of the plane: rectangle (`LEFT`/`BOTTOM`/`RIGHT`/`TOP`), body
(`true` when `TiGetBody` is non-null, i.e. a cell/obstruction tile) and
edge-validity flags. -/
structure Tile where
  left : Int
  bot : Int
  right : Int
  top : Int
  body : Bool
  flags : Flags
deriving DecidableEq, Repr

/-- Modelled from the spec: `rtrMARKED(tile, corner)` of `rtrDcmpose.h`
(not under `src/`) reads the edge-validity flag at the given corner. -/
def rtrMARKED (t : Tile) (c : Corner) : Bool :=
  match c with
  | .NW => t.flags.nw
  | .NE => t.flags.ne
  | .SW => t.flags.sw
  | .SE => t.flags.se

/-- Modelled from the spec: `rtrMARK(tile, corner)` of `rtrDcmpose.h`
(not under `src/`) sets the edge-validity flag at the given corner. -/
def rtrMARK (t : Tile) (c : Corner) : Tile :=
  match c with
  | .NW => { t with flags := { t.flags with nw := true } }
  | .NE => { t with flags := { t.flags with ne := true } }
  | .SW => { t with flags := { t.flags with sw := true } }
  | .SE => { t with flags := { t.flags with se := true } }

/-- Modelled from the spec: `rtrCLEAR(tile, corner)` of `rtrDcmpose.h`
(not under `src/`) clears the edge-validity flag at the given corner. -/
def rtrCLEAR (t : Tile) (c : Corner) : Tile :=
  match c with
  | .NW => { t with flags := { t.flags with nw := false } }
  | .NE => { t with flags := { t.flags with ne := false } }
  | .SW => { t with flags := { t.flags with sw := false } }
  | .SE => { t with flags := { t.flags with se := false } }

/-- Modelled from the spec: `rtrCLEAR(tile, -1)` clears all four flags. -/
def rtrCLEARAll (t : Tile) : Tile :=
  { t with flags := ⟨false, false, false, false⟩ }

/-- `rtrSrClear` (rtrDcmpose.c): per-tile priming function applied to every
tile intersecting the route area.  Clears all four flags; on a space tile it
then marks NW/NE when `TOP(tile) == area->r_ytop` and SW/SE when
`BOTTOM(tile) == area->r_ytop` (the comparison the source actually makes);
on a non-space tile it marks all four flags. -/
def rtrSrClear (tile : Tile) (area : Rect) : Tile :=
  let t := rtrCLEARAll tile
  if t.body = false then
    let t := if t.top = area.r_ytop then rtrMARK (rtrMARK t .NW) .NE else t
    let t := if t.bot = area.r_ytop then rtrMARK (rtrMARK t .SW) .SE else t
    t
  else
    rtrMARK (rtrMARK (rtrMARK (rtrMARK t .NW) .NE) .SW) .SE

/-- `rtrXDist` (rtrDcmpose.c): distance from `x` to the nearer outer
vertical edge of the two bordering space tiles, to the right when `isRight`
and to the left otherwise. -/
def rtrXDist (t1 t2 : Tile) (x : Int) (isRight : Bool) : Int :=
  if isRight then min (t1.right - x) (t2.right - x)
  else min (x - t1.left) (x - t2.left)

/-- A tile plane, embedded as the list of its tiles. -/
abbrev Plane := List Tile

/-- Half-open containment of a point in a tile (`LEFT ≤ x < RIGHT`,
`BOTTOM ≤ y < TOP`), the convention of the corner-stitched library. -/
def tileContains (t : Tile) (p : Pt) : Bool :=
  t.left ≤ p.p_x ∧ p.p_x < t.right ∧ t.bot ≤ p.p_y ∧ p.p_y < t.top

/-- Placeholder tile returned by point location on a point no tile of the
embedded plane covers; it never arises on a plane that covers the probed
points. -/
def deadTile : Tile :=
  ⟨0, 0, 0, 0, true, ⟨true, true, true, true⟩⟩

/-- Modelled from the spec: `TiSrPoint` of the corner-stitched tile library
(not under `src/`), the point-location primitive returning the tile that
contains the given point. -/
def TiSrPoint (plane : Plane) (p : Pt) : Tile :=
  (List.find? (fun t => tileContains t p) plane).getD deadTile

/-- Modelled from the spec: `TiSplitX(tile, x)` of the tile library (not
under `src/`) splits a tile along the vertical line at `x`, producing two
tiles sharing TOP and BOTTOM; `tile` becomes the left portion and the new
tile is the right portion; the new tile starts as a copy of the old. -/
def TiSplitX (t : Tile) (x : Int) : Tile × Tile :=
  ({ t with right := x }, { t with left := x })

/-- Replace the (first) occurrence of a tile value in the plane, mirroring
in-place mutation of the tile record through its pointer. -/
def planeReplace : Plane → Tile → Tile → Plane
  | [], _, _ => []
  | t :: ts, x, x2 => if t = x then x2 :: ts else t :: planeReplace ts x x2

/-- Remove the (first) occurrence of a tile value from the plane, mirroring
deallocation of a tile absorbed by a join. -/
def planeRemove : Plane → Tile → Plane
  | [], _ => []
  | t :: ts, x => if t = x then ts else t :: planeRemove ts x

/-- Replace the (first) occurrence of a tile value by the two halves
produced by a split. -/
def planeSplit : Plane → Tile → Tile → Tile → Plane
  | [], _, _, _ => []
  | t :: ts, x, l, r => if t = x then l :: r :: ts else t :: planeSplit ts x l r

/-- The geometry-and-body view of a plane: what the claims call the tile
geometry, forgetting only the edge-validity flags. -/
def planeGeom (pl : Plane) : List (Int × Int × Int × Int × Bool) :=
  pl.map (fun t => (t.left, t.bot, t.right, t.top, t.body))

/-- The probe point `p0` of `rtrUseCorner` (rtrDcmpose.c, the `switch` on
the corner): locates the spanning tile `tiles[1]` above or below the
corner. -/
def rtrCornerP0 (point : Pt) (corner : Corner) : Pt :=
  match corner with
  | .NE => point
  | .NW => point
  | .SE => ⟨point.p_x, point.p_y - 1⟩
  | .SW => ⟨point.p_x, point.p_y - 1⟩

/-- The probe point `p1` of `rtrUseCorner` (rtrDcmpose.c): locates the side
tile `tiles[2]` left or right of the corner. -/
def rtrCornerP1 (point : Pt) (corner : Corner) : Pt :=
  match corner with
  | .NE => ⟨point.p_x, point.p_y - 1⟩
  | .NW => ⟨point.p_x - 1, point.p_y - 1⟩
  | .SE => point
  | .SW => ⟨point.p_x - 1, point.p_y⟩

/-- The flag of the side tile consulted by the final `switch` of
`rtrUseCorner`: NE checks NW, NW checks NE, SE checks SW, SW checks SE. -/
def rtrUseCornerFlag : Corner → Corner
  | .NE => .NW
  | .NW => .NE
  | .SE => .SW
  | .SW => .SE

/-- `rtrUseCorner` (rtrDcmpose.c): decides whether the corner `point` of an
obstruction tile is an eligible convex corner.  Rejects corners on (or
beyond) the route-area boundary, corners whose spanning tile is a cell tile
or has a vertical edge at `point.p_x`, corners whose side tile is a cell
tile, and corners whose side-tile flag is already marked. -/
def rtrUseCorner (area : Rect) (plane : Plane) (point : Pt) (corner : Corner) :
    Bool :=
  if point.p_x ≤ area.r_xbot ∨ area.r_xtop ≤ point.p_x
      ∨ point.p_y ≤ area.r_ybot ∨ area.r_ytop ≤ point.p_y then
    false
  else
    let t1 := TiSrPoint plane (rtrCornerP0 point corner)
    if t1.body = true ∨ t1.left = point.p_x ∨ t1.right = point.p_x then
      false
    else
      let t2 := TiSrPoint plane (rtrCornerP1 point corner)
      if t2.body = true then false
      else !(rtrMARKED t2 (rtrUseCornerFlag corner))

/-- The six-case flag classification inside the loop of `rtrYDist`
(rtrDcmpose.c, cases (A)-(F)): which committed-edge flag guards the
horizontal boundary the walk is about to cross. -/
def rtrYFlag (current next : Tile) (up : Bool) : Bool :=
  if current.left < next.left then
    if next.right < current.right then
      if up then rtrMARKED next .SW else rtrMARKED next .NW
    else
      if up then rtrMARKED current .NE else rtrMARKED current .SE
  else
    if up then rtrMARKED current .NW else rtrMARKED current .SW

/-- One iteration of the `rtrYDist` loop: either the loop breaks with the
final value of `p.p_y`, or the walk advances to the next tile. -/
inductive YStep where
  | halt (py : Int)
  | step (next : Tile)
deriving DecidableEq, Repr

/-- The body of the `for (;;)` loop of `rtrYDist` (rtrDcmpose.c): stop at
the route-area boundary, at a cell tile (restoring `p.p_y` when walking
down), at a vertical boundary at `x`, or at a marked horizontal half-edge
(resetting `p.p_y` to `BOTTOM(current)` when walking down); otherwise
continue from the next tile. -/
def rtrYDistStep (plane : Plane) (area : Rect) (x : Int) (up : Bool)
    (current : Tile) : YStep :=
  if up then
    let py := current.top
    if area.r_ytop ≤ py then .halt py
    else
      let next := TiSrPoint plane ⟨x, py⟩
      if next.body = true then .halt py
      else if next.left = x ∨ next.right = x then .halt py
      else if rtrYFlag current next true = true then .halt py
      else .step next
  else
    let py0 := current.bot
    if py0 ≤ area.r_ybot then .halt py0
    else
      let py := py0 - 1
      let next := TiSrPoint plane ⟨x, py⟩
      if next.body = true then .halt (py + 1)
      else if next.left = x ∨ next.right = x then .halt py
      else if rtrYFlag current next false = true then .halt current.bot
      else .step next

/-- The loop of `rtrYDist`, with explicit fuel (the walk is strictly
monotone in `y`, so any fuel at least the number of tiles is enough).
Returns the final `p.p_y`, the final `current` tile, and the list of tiles
the walk held as `current`, most recent first. -/
def rtrYDistGo (plane : Plane) (area : Rect) (x : Int) (up : Bool) :
    Nat → Tile → Int → List Tile → Int × Tile × List Tile
  | 0, current, py, vis => (py, current, vis)
  | fuel + 1, current, _py, vis =>
    match rtrYDistStep plane area x up current with
    | .halt py2 => (py2, current, vis)
    | .step next =>
        rtrYDistGo plane area x up fuel next
          (if up then current.top else current.bot - 1) (next :: vis)

/-- `rtrYDist` (rtrDcmpose.c): walks space tiles from `tiles[1]` along the
column `x = point.p_x` and returns the clear distance together with the
tile stored into `tiles[0]` (the start tile when walking up, the final
`current` when walking down) and the trace of visited tiles (most recent
first). -/
def rtrYDist (plane : Plane) (area : Rect) (tiles1 : Tile) (point : Pt)
    (up : Bool) (fuel : Nat) : Int × Tile × List Tile :=
  let r := rtrYDistGo plane area point.p_x up fuel tiles1 point.p_y [tiles1]
  if up then (r.1 - point.p_y, tiles1, r.2.2)
  else (point.p_y - r.1, r.2.1, r.2.2)

/-- `rtrMerge(tup, tdn, plane)` (rtrDcmpose.c): merge two space tiles
sharing LEFT and RIGHT; `TiJoinY` preserves `tup` as the composite, taking
the SW/SE flags of `tdn`; afterwards try a sideways join with `BL(tup)` and
`TR(tup)` when the neighbor is a space tile inside the routing area with
matching TOP and BOTTOM.  Returns the updated plane together with the
current value of the `tup` pointer. -/
def rtrMerge (area : Rect) (plane : Plane) (tup tdn : Tile) : Plane × Tile :=
  if tup.body = true ∨ tdn.body = true then (plane, tup)
  else if tdn.left ≠ tup.left ∨ tdn.right ≠ tup.right then (plane, tup)
  else
    let tup2 :=
      { tup with flags :=
          { tup.flags with sw := tdn.flags.sw, se := tdn.flags.se } }
    let comp := { tup2 with bot := tdn.bot }
    let plane := planeReplace (planeRemove plane tdn) tup comp
    let side := TiSrPoint plane ⟨comp.left - 1, comp.bot⟩
    let r1 :=
      if side.body = false ∧ area.r_xbot ≤ side.left
          ∧ side.top = comp.top ∧ side.bot = comp.bot then
        let comp2 := { comp with left := side.left }
        (planeReplace (planeRemove plane side) comp comp2, comp2)
      else (plane, comp)
    let plane := r1.1
    let comp := r1.2
    let side := TiSrPoint plane ⟨comp.right, comp.top - 1⟩
    if side.body = false ∧ side.right ≤ area.r_xtop
        ∧ side.top = comp.top ∧ side.bot = comp.bot then
      let comp2 := { comp with right := side.right }
      (planeReplace (planeRemove plane side) comp comp2, comp2)
    else (plane, comp)

/-- The flag fix-up after each `TiSplitX` in the vertical-cut loop of
`rtrMarkChannel` (rtrDcmpose.c): propagate NE/SE from the old tile to the
new one (the second `else` arm of the source clears NE on `new`, as written),
clear NW/SW on the new tile and NE/SE on the old tile.  Takes the left and
right halves of the split (both still carrying the pre-split flags) and
returns them updated. -/
def rtrVertFix (tile tnew : Tile) : Tile × Tile :=
  let tnew := if rtrMARKED tile .NE then rtrMARK tnew .NE
              else rtrCLEAR tnew .NE
  let tnew := if rtrMARKED tile .SE then rtrMARK tnew .SE
              else rtrCLEAR tnew .NE
  let tnew := rtrCLEAR tnew .NW
  let tnew := rtrCLEAR tnew .SW
  let tile := rtrCLEAR tile .NE
  let tile := rtrCLEAR tile .SE
  (tile, tnew)

/-- The `while (TRUE)` loop of the vertical-cut branch of `rtrMarkChannel`
(rtrDcmpose.c): split the current tile at `x`, fix up the flags, merge both
halves with their lower neighbors, and continue upward until
`TOP(tile) >= lastY`.  Returns the plane and the final values of the
`tile` and `new` pointers. -/
def rtrVertLoop (area : Rect) (x lastY : Int) :
    Nat → Plane → Tile → Plane × Tile × Tile
  | 0, plane, tile => (plane, tile, tile)
  | fuel + 1, plane, tile =>
    let s := TiSplitX tile x
    let fx := rtrVertFix s.1 s.2
    let tileL := fx.1
    let tnew := fx.2
    let plane := planeSplit plane tile tileL tnew
    let m1 := rtrMerge area plane tnew (TiSrPoint plane ⟨tnew.left, tnew.bot - 1⟩)
    let plane := m1.1
    let tnew := m1.2
    let m2 := rtrMerge area plane tileL (TiSrPoint plane ⟨tileL.left, tileL.bot - 1⟩)
    let plane := m2.1
    let tileL := m2.2
    if lastY ≤ tileL.top then (plane, tileL, tnew)
    else rtrVertLoop area x lastY fuel plane (TiSrPoint plane ⟨x, tileL.top⟩)

/-- The vertical-cut branch of `rtrMarkChannel` (rtrDcmpose.c): run the
split loop from `tiles[0]`, then merge the final `new` and `tile` with
their upper neighbors `RT(new)` and `RT(tile)`. -/
def rtrMarkVert (area : Rect) (plane : Plane) (x lastY : Int)
    (tiles0 : Tile) (fuel : Nat) : Plane :=
  let r := rtrVertLoop area x lastY fuel plane tiles0
  let plane := r.1
  let tileL := r.2.1
  let tnew := r.2.2
  let m3 := rtrMerge area plane (TiSrPoint plane ⟨tnew.right - 1, tnew.top⟩) tnew
  let plane := m3.1
  let m4 := rtrMerge area plane (TiSrPoint plane ⟨tileL.right - 1, tileL.top⟩) tileL
  m4.1

/-- The horizontal-cut branch of `rtrMarkChannel` (rtrDcmpose.c): the
flag updates on `tiles[2]` and `tiles[1]`, by corner, with `d1`/`d2` the
outer x-coordinates of the two tiles in the chosen direction. -/
def rtrMarkHoriz (t1 t2 : Tile) (corner : Corner) : Tile × Tile :=
  match corner with
  | .NE =>
      let d1 := t1.right
      let d2 := t2.right
      let t2 := rtrMARK t2 .NW
      let t2 := if d2 ≤ d1 then rtrMARK t2 .NE else t2
      let t1 := if d1 ≤ d2 then rtrMARK t1 .SE else t1
      (t1, t2)
  | .SE =>
      let d1 := t1.right
      let d2 := t2.right
      let t2 := rtrMARK t2 .SW
      let t2 := if d2 ≤ d1 then rtrMARK t2 .SE else t2
      let t1 := if d1 ≤ d2 then rtrMARK t1 .NE else t1
      (t1, t2)
  | .NW =>
      let d1 := t1.left
      let d2 := t2.left
      let t2 := rtrMARK t2 .NE
      let t2 := if d2 ≤ d1 then rtrMARK t2 .NW else t2
      let t1 := if d1 ≤ d2 then rtrMARK t1 .SW else t1
      (t1, t2)
  | .SW =>
      let d1 := t1.left
      let d2 := t2.left
      let t2 := rtrMARK t2 .SE
      let t2 := if d2 ≤ d1 then rtrMARK t2 .SW else t2
      let t1 := if d1 ≤ d2 then rtrMARK t1 .NW else t1
      (t1, t2)

/-- `rtrMarkChannel` (rtrDcmpose.c): compute `xDist` and `yDist` from the
corner; when `xDist < yDist` commit a horizontal cut (flag updates on the
two bordering tiles), otherwise run the vertical-cut split/merge loop with
`lastY = point.p_y` plus `yDist` for the upward corners. -/
def rtrMarkChannel (area : Rect) (plane : Plane) (t1 t2 : Tile)
    (point : Pt) (corner : Corner) (fuel : Nat) : Plane :=
  let pos : Bool := corner = Corner.NE ∨ corner = Corner.SE
  let up : Bool := corner = Corner.NE ∨ corner = Corner.NW
  let xDist := rtrXDist t1 t2 point.p_x pos
  let yr := rtrYDist plane area t1 point up fuel
  let yDist := yr.1
  let tiles0 := yr.2.1
  if xDist < yDist then
    let h := rtrMarkHoriz t1 t2 corner
    planeReplace (planeReplace plane t2 h.2) t1 h.1
  else
    let lastY := point.p_y + (if up then yDist else 0)
    rtrMarkVert area plane point.p_x lastY tiles0 fuel

/-- Modelled from the spec: `RTR_GRIDUP(c, o)` of `router/router.h` (not
under `src/`), the smallest grid coordinate `o + k*g` at or above `c`. -/
def gridUp (c o g : Int) : Int := c + (o - c) % g

/-- The grid rounding performed at the top of `RtrDecompose`
(rtrDcmpose.c): move each of the four sides of the area to a canonical
position halfway between grid points, top and right never moving down and
bottom and left never moving up. -/
def rtrRoundArea (g ox oy : Int) (area : Rect) : Rect :=
  let tmp1 := gridUp area.r_xtop ox g - g / 2
  let xtop := if tmp1 < area.r_xtop then tmp1 + g else tmp1
  let tmp2 := gridUp area.r_xbot ox g - g / 2
  let xbot := if area.r_xbot < tmp2 then tmp2 - g else tmp2
  let tmp3 := gridUp area.r_ytop oy g - g / 2
  let ytop := if tmp3 < area.r_ytop then tmp3 + g else tmp3
  let tmp4 := gridUp area.r_ybot oy g - g / 2
  let ybot := if area.r_ybot < tmp4 then tmp4 - g else tmp4
  ⟨xbot, ybot, xtop, ytop⟩

/-- Modelled from the spec: `GEO_RECTNULL` of `utils/geometry.h` (not under
`src/`), true when the rectangle has non-positive width or height. -/
def GEO_RECTNULL (r : Rect) : Bool :=
  r.r_xtop ≤ r.r_xbot ∨ r.r_ytop ≤ r.r_ybot

/-- The two terminal outcomes of `RtrDecompose`: the NULL empty sentinel,
or a decomposition (painting obstructions and running the corner
algorithm, which happens only in this branch). -/
inductive DecompOutcome where
  | empty
  | decomposed
deriving DecidableEq, Repr

/-- The entry portion of `RtrDecompose` (rtrDcmpose.c): round the area of the
area in place, publish it as `RouteArea`, and return NULL when the rounded
area is null, before any painting or decomposition.  The first component
is the rounded rectangle the `area` of the caller now holds. -/
def RtrDecompose (g ox oy : Int) (area : Rect) : Rect × DecompOutcome :=
  let r := rtrRoundArea g ox oy area
  (r, if GEO_RECTNULL r then .empty else .decomposed)

/-- The flag table of the six-case classification of the source, written with
the width conditions the code actually branches on: `next` strictly
narrower on both sides tests the SW (up) or NW (down) flag of `next`; a
strictly greater LEFT of `next` otherwise tests the NE (up) or SE (down) flag of `current`;
otherwise the NW (up) or SW (down) flag of `current`. -/
def rtrYFlagTable (current next : Tile) (up : Bool) : Bool :=
  if current.left < next.left ∧ next.right < current.right then
    if up then rtrMARKED next .SW else rtrMARKED next .NW
  else if current.left < next.left then
    if up then rtrMARKED current .NE else rtrMARKED current .SE
  else
    if up then rtrMARKED current .NW else rtrMARKED current .SW

/-- The flag table asserted by the claim about `rtrYDist`: the flag tested
is the SW (up) or NW (down) flag of `next` when `next` is narrower than `current` on
both sides, the NE (up) or SE (down) flag of `current` when `next` extends right of
`current` only, and the NW (up) or SW (down) flag of `current` when `next` extends
left of `current` only. -/
def c4FlagTableClaim : Prop :=
  ∀ (current next : Tile) (up : Bool),
    (current.left < next.left ∧ next.right < current.right →
      rtrYFlag current next up
        = (if up then rtrMARKED next .SW else rtrMARKED next .NW))
    ∧ (current.left ≤ next.left ∧ current.right < next.right →
      rtrYFlag current next up
        = (if up then rtrMARKED current .NE else rtrMARKED current .SE))
    ∧ (next.left < current.left ∧ next.right ≤ current.right →
      rtrYFlag current next up
        = (if up then rtrMARKED current .NW else rtrMARKED current .SW))

/-- Fixture: space tile `[0,10) x [0,4)` with only the NE flag set. -/
def exT1 : Tile := ⟨0, 0, 10, 4, false, ⟨false, true, false, false⟩⟩

/-- Fixture: space tile `[0,20) x [4,8)` with all flags clear; it shares
its LEFT with `exT1` and extends further right. -/
def exT2 : Tile := ⟨0, 4, 20, 8, false, ⟨false, false, false, false⟩⟩

/-- Fixture: cell tile closing the column above `exT2`. -/
def exObsTop : Tile := ⟨0, 8, 30, 12, true, ⟨true, true, true, true⟩⟩

/-- Fixture: cell tile right of `exT1`. -/
def exObsR1 : Tile := ⟨10, 0, 30, 4, true, ⟨true, true, true, true⟩⟩

/-- Fixture: cell tile right of `exT2`. -/
def exObsR2 : Tile := ⟨20, 4, 30, 8, true, ⟨true, true, true, true⟩⟩

/-- Fixture plane for the vertical-walk scenarios. -/
def exPlane : Plane := [exT1, exT2, exObsTop, exObsR1, exObsR2]

/-- Fixture route area for the vertical-walk scenarios. -/
def exArea : Rect := ⟨0, 0, 30, 12⟩

/-- The downward vertical-boundary stop condition of the `rtrYDist` loop:
the walk is still inside the route area, the next tile below is a space
tile, and its LEFT or RIGHT equals the column `x`.  In exactly this case
the source breaks with `p.p_y` left at `BOTTOM(current) - 1`, so the
returned distance is one more than the distance to the boundary between
`current` and `next`. -/
def rtrYDownVB (plane : Plane) (area : Rect) (x : Int) (c : Tile) : Bool :=
  area.r_ybot < c.bot
  ∧ (TiSrPoint plane ⟨x, c.bot - 1⟩).body = false
  ∧ ((TiSrPoint plane ⟨x, c.bot - 1⟩).left = x
      ∨ (TiSrPoint plane ⟨x, c.bot - 1⟩).right = x)

/-- Fixture: space tile `[0,10) x [6,10)` for the downward walk. -/
def exD1 : Tile := ⟨0, 6, 10, 10, false, ⟨false, false, false, false⟩⟩

/-- Fixture: space tile `[5,12) x [2,6)` below `exD1`, whose LEFT lies on
the walked column `x = 5`. -/
def exDN : Tile := ⟨5, 2, 12, 6, false, ⟨false, false, false, false⟩⟩

/-- Fixture plane for the downward vertical-boundary stop. -/
def exDPlane : Plane := [exD1, exDN]

lemma rtrMARK_left (t : Tile) (c : Corner) : (rtrMARK t c).left = t.left := by
  cases c <;> rfl

lemma rtrMARK_bot (t : Tile) (c : Corner) : (rtrMARK t c).bot = t.bot := by
  cases c <;> rfl

lemma rtrMARK_right (t : Tile) (c : Corner) : (rtrMARK t c).right = t.right := by
  cases c <;> rfl

lemma rtrMARK_top (t : Tile) (c : Corner) : (rtrMARK t c).top = t.top := by
  cases c <;> rfl

lemma rtrMARK_body (t : Tile) (c : Corner) : (rtrMARK t c).body = t.body := by
  cases c <;> rfl

lemma planeGeom_replace (pl : Plane) (x x2 : Tile)
    (h1 : x2.left = x.left) (h2 : x2.bot = x.bot) (h3 : x2.right = x.right)
    (h4 : x2.top = x.top) (h5 : x2.body = x.body) :
    planeGeom (planeReplace pl x x2) = planeGeom pl := by
  induction pl with
  | nil => rfl
  | cons t ts ih =>
      by_cases ht : t = x
      · subst ht
        have hr : planeReplace (t :: ts) t x2 = x2 :: ts := by
          simp [planeReplace]
        rw [hr]
        simp only [planeGeom, List.map_cons]
        rw [h1, h2, h3, h4, h5]
      · simp only [planeReplace, if_neg ht, planeGeom, List.map_cons]
        exact congrArg _ ih

/-- Geometry view of the first component of `rtrMarkHoriz` equals that of `t1`. -/
lemma rtrMarkHoriz_fst_geom (t1 t2 : Tile) (c : Corner) :
    (rtrMarkHoriz t1 t2 c).1.left = t1.left
    ∧ (rtrMarkHoriz t1 t2 c).1.bot = t1.bot
    ∧ (rtrMarkHoriz t1 t2 c).1.right = t1.right
    ∧ (rtrMarkHoriz t1 t2 c).1.top = t1.top
    ∧ (rtrMarkHoriz t1 t2 c).1.body = t1.body := by
  cases c <;> simp only [rtrMarkHoriz] <;> split_ifs <;>
    simp [rtrMARK_left, rtrMARK_bot, rtrMARK_right, rtrMARK_top, rtrMARK_body]

/-- Geometry view of the second component of `rtrMarkHoriz` equals that of `t2`. -/
lemma rtrMarkHoriz_snd_geom (t1 t2 : Tile) (c : Corner) :
    (rtrMarkHoriz t1 t2 c).2.left = t2.left
    ∧ (rtrMarkHoriz t1 t2 c).2.bot = t2.bot
    ∧ (rtrMarkHoriz t1 t2 c).2.right = t2.right
    ∧ (rtrMarkHoriz t1 t2 c).2.top = t2.top
    ∧ (rtrMarkHoriz t1 t2 c).2.body = t2.body := by
  cases c <;> simp only [rtrMarkHoriz] <;> split_ifs <;>
    simp [rtrMARK_left, rtrMARK_bot, rtrMARK_right, rtrMARK_top, rtrMARK_body]

/-- C2: after priming, the source leaves the SW and SE flags of a space
tile sitting on the route-area bottom cleared: `rtrSrClear` compares
`BOTTOM(tile)` against `area->r_ytop`, not `r_ybot`, so at a space tile
with BOTTOM equal to the route-area bottom (and TOP below the top) every
flag comes out cleared, contradicting the claim that its SW and SE flags
are set. -/
theorem c2_srClear_bottom_bug :
    rtrSrClear ⟨0, 0, 10, 5, false, ⟨true, true, true, true⟩⟩ ⟨0, 0, 10, 10⟩
      = ⟨0, 0, 10, 5, false, ⟨false, false, false, false⟩⟩
    ∧ (⟨0, 0, 10, 5, false, ⟨true, true, true, true⟩⟩ : Tile).bot
        = (⟨0, 0, 10, 10⟩ : Rect).r_ybot
    ∧ (⟨0, 0, 10, 5, false, ⟨true, true, true, true⟩⟩ : Tile).body = false := by
  decide

/-- C3: in the vertical-cut fix-up the second `else` arm clears NE on the
new tile instead of SE, so with the pre-split tile carrying NE set and SE
clear the new (right) tile ends with its NE flag cleared, contradicting
the claim that the NE flag of the new tile equals the pre-split NE
flag. -/
theorem c3_vertFix_ne_bug :
    ((rtrVertFix ⟨0, 0, 5, 4, false, ⟨false, true, false, false⟩⟩
        ⟨5, 0, 10, 4, false, ⟨false, true, false, false⟩⟩).2).flags.ne = false
    ∧ (⟨0, 0, 5, 4, false, ⟨false, true, false, false⟩⟩ : Tile).flags.ne = true
    ∧ (⟨0, 0, 5, 4, false, ⟨false, true, false, false⟩⟩ : Tile).flags.se
        = false := by
  decide

/-- C5: flags committed by a horizontal cut, for each of the four corners:
the flag of the side tile pointing into the obstruction is always set; when the
span tile reaches at least as far (`d1 ≥ d2`) the outside flag of the side tile
is set; when the side tile reaches at least as far (`d1 ≤ d2`) the span
is also set; when the side tile reaches at least as far (`d1 ≤ d2`) the
inner flag of the span tile is set; with `d1 = d2` both conditional flags
are set. -/
theorem c5_horiz_flags (t1 t2 : Tile) :
    (rtrMARKED (rtrMarkHoriz t1 t2 .NE).2 .NW = true
      ∧ (t2.right ≤ t1.right → rtrMARKED (rtrMarkHoriz t1 t2 .NE).2 .NE = true)
      ∧ (t1.right ≤ t2.right → rtrMARKED (rtrMarkHoriz t1 t2 .NE).1 .SE = true)
      ∧ (t1.right = t2.right →
          rtrMARKED (rtrMarkHoriz t1 t2 .NE).2 .NE = true
          ∧ rtrMARKED (rtrMarkHoriz t1 t2 .NE).1 .SE = true))
    ∧ (rtrMARKED (rtrMarkHoriz t1 t2 .SE).2 .SW = true
      ∧ (t2.right ≤ t1.right → rtrMARKED (rtrMarkHoriz t1 t2 .SE).2 .SE = true)
      ∧ (t1.right ≤ t2.right → rtrMARKED (rtrMarkHoriz t1 t2 .SE).1 .NE = true))
    ∧ (rtrMARKED (rtrMarkHoriz t1 t2 .NW).2 .NE = true
      ∧ (t2.left ≤ t1.left → rtrMARKED (rtrMarkHoriz t1 t2 .NW).2 .NW = true)
      ∧ (t1.left ≤ t2.left → rtrMARKED (rtrMarkHoriz t1 t2 .NW).1 .SW = true))
    ∧ (rtrMARKED (rtrMarkHoriz t1 t2 .SW).2 .SE = true
      ∧ (t2.left ≤ t1.left → rtrMARKED (rtrMarkHoriz t1 t2 .SW).2 .SW = true)
      ∧ (t1.left ≤ t2.left → rtrMARKED (rtrMarkHoriz t1 t2 .SW).1 .NW = true)) := by
  refine ⟨⟨?_, ?_, ?_, ?_⟩, ⟨?_, ?_, ?_⟩, ⟨?_, ?_, ?_⟩, ⟨?_, ?_, ?_⟩⟩ <;>
    simp only [rtrMarkHoriz] <;>
    first
    | (intro h
       constructor <;>
         simp_all [rtrMARK, rtrMARKED, le_of_eq, le_refl])
    | (try intro h) <;> split_ifs <;> simp_all [rtrMARK, rtrMARKED]

/-- C5 witness: a concrete tie (`d1 = d2`) where, per the theorem, both
conditional flags of the NE case are set. -/
theorem c5_horiz_flags_witness :
    rtrMARKED (rtrMarkHoriz ⟨0, 4, 30, 8, false, ⟨false, false, false, false⟩⟩
        ⟨5, 0, 30, 4, false, ⟨false, false, false, false⟩⟩ .NE).2 .NE = true
    ∧ rtrMARKED (rtrMarkHoriz ⟨0, 4, 30, 8, false, ⟨false, false, false, false⟩⟩
        ⟨5, 0, 30, 4, false, ⟨false, false, false, false⟩⟩ .NE).1 .SE = true :=
  (c5_horiz_flags ⟨0, 4, 30, 8, false, ⟨false, false, false, false⟩⟩
      ⟨5, 0, 30, 4, false, ⟨false, false, false, false⟩⟩).1.2.2.2 (by decide)

/-- C7: `rtrMerge` joins nothing unless both operands are space tiles
sharing LEFT and RIGHT exactly (otherwise plane and `tup` are returned
untouched); when it joins, the composite (the preserved upper operand)
carries the SW/SE flags of the lower operand and the NW/NE flags of the upper operand, namely its
flags. -/
theorem c7_merge_flags (area : Rect) (plane : Plane) (tup tdn : Tile) :
    (tup.body = true ∨ tdn.body = true ∨ tdn.left ≠ tup.left
        ∨ tdn.right ≠ tup.right →
      rtrMerge area plane tup tdn = (plane, tup))
    ∧ (tup.body = false → tdn.body = false → tdn.left = tup.left →
        tdn.right = tup.right →
      (rtrMerge area plane tup tdn).2.flags.sw = tdn.flags.sw
      ∧ (rtrMerge area plane tup tdn).2.flags.se = tdn.flags.se
      ∧ (rtrMerge area plane tup tdn).2.flags.nw = tup.flags.nw
      ∧ (rtrMerge area plane tup tdn).2.flags.ne = tup.flags.ne) := by
  constructor
  · intro h
    unfold rtrMerge
    rcases h with h | h | h | h
    · rw [if_pos (Or.inl h)]
    · rw [if_pos (Or.inr h)]
    · split_ifs with h1 h2
      · rfl
      · rfl
      · exact absurd (Or.inl h) h2
    · split_ifs with h1 h2
      · rfl
      · rfl
      · exact absurd (Or.inr h) h2
  · intro hb1 hb2 hl hr
    unfold rtrMerge
    rw [if_neg (by simp [hb1, hb2]), if_neg (by simp [hl, hr])]
    dsimp only
    split_ifs <;> simp

/-- C7 witness: a concrete join where the composite takes from the lower tile the
SW/SE flags and keeps from the upper tile the NW/NE flags. -/
theorem c7_merge_flags_witness :
    (rtrMerge ⟨0, 0, 30, 12⟩
        [⟨0, 5, 10, 8, false, ⟨true, false, true, true⟩⟩,
         ⟨0, 2, 10, 5, false, ⟨true, true, false, true⟩⟩]
        ⟨0, 5, 10, 8, false, ⟨true, false, true, true⟩⟩
        ⟨0, 2, 10, 5, false, ⟨true, true, false, true⟩⟩).2.flags.sw
      = (⟨0, 2, 10, 5, false, ⟨true, true, false, true⟩⟩ : Tile).flags.sw
    ∧ (rtrMerge ⟨0, 0, 30, 12⟩
        [⟨0, 5, 10, 8, false, ⟨true, false, true, true⟩⟩,
         ⟨0, 2, 10, 5, false, ⟨true, true, false, true⟩⟩]
        ⟨0, 5, 10, 8, false, ⟨true, false, true, true⟩⟩
        ⟨0, 2, 10, 5, false, ⟨true, true, false, true⟩⟩).2.flags.se
      = (⟨0, 2, 10, 5, false, ⟨true, true, false, true⟩⟩ : Tile).flags.se
    ∧ (rtrMerge ⟨0, 0, 30, 12⟩
        [⟨0, 5, 10, 8, false, ⟨true, false, true, true⟩⟩,
         ⟨0, 2, 10, 5, false, ⟨true, true, false, true⟩⟩]
        ⟨0, 5, 10, 8, false, ⟨true, false, true, true⟩⟩
        ⟨0, 2, 10, 5, false, ⟨true, true, false, true⟩⟩).2.flags.nw
      = (⟨0, 5, 10, 8, false, ⟨true, false, true, true⟩⟩ : Tile).flags.nw
    ∧ (rtrMerge ⟨0, 0, 30, 12⟩
        [⟨0, 5, 10, 8, false, ⟨true, false, true, true⟩⟩,
         ⟨0, 2, 10, 5, false, ⟨true, true, false, true⟩⟩]
        ⟨0, 5, 10, 8, false, ⟨true, false, true, true⟩⟩
        ⟨0, 2, 10, 5, false, ⟨true, true, false, true⟩⟩).2.flags.ne
      = (⟨0, 5, 10, 8, false, ⟨true, false, true, true⟩⟩ : Tile).flags.ne :=
  (c7_merge_flags ⟨0, 0, 30, 12⟩ _ _ _).2 rfl rfl rfl rfl

/-- C9: `RtrDecompose` yields the empty sentinel exactly when the rounded
route area has non-positive width or height; in that case the outcome is
the explicit `empty` value, produced before any painting or decomposition
(only the `decomposed` outcome performs them). -/
theorem c9_empty_sentinel (g ox oy : Int) (area : Rect) :
    (RtrDecompose g ox oy area).2 = DecompOutcome.empty
      ↔ ((rtrRoundArea g ox oy area).r_xtop ≤ (rtrRoundArea g ox oy area).r_xbot
        ∨ (rtrRoundArea g ox oy area).r_ytop
            ≤ (rtrRoundArea g ox oy area).r_ybot) := by
  unfold RtrDecompose
  dsimp only
  split_ifs with h
  · simpa [GEO_RECTNULL] using h
  · simp only [GEO_RECTNULL, decide_eq_true_eq] at h
    simpa using h

/-- C9 witness: a concrete area whose rounding is null yields the empty
sentinel. -/
theorem c9_empty_sentinel_witness :
    (RtrDecompose 10 0 0 ⟨5, 5, 3, 3⟩).2 = DecompOutcome.empty :=
  (c9_empty_sentinel 10 0 0 ⟨5, 5, 3, 3⟩).mpr (by decide)

/-- C1: dispatch of `rtrMarkChannel`: with `xDist` strictly below `yDist`
the horizontal cut is taken and only flags change (the geometry-and-body
view of the plane is untouched); otherwise, the tie included, the
vertical-cut split/merge routine runs on the column at `point.p_x`. -/
theorem c1_markChannel_dispatch (area : Rect) (plane : Plane) (t1 t2 : Tile)
    (point : Pt) (corner : Corner) (fuel : Nat) :
    (rtrXDist t1 t2 point.p_x (decide (corner = Corner.NE ∨ corner = Corner.SE))
        < (rtrYDist plane area t1 point
            (decide (corner = Corner.NE ∨ corner = Corner.NW)) fuel).1 →
      planeGeom (rtrMarkChannel area plane t1 t2 point corner fuel)
        = planeGeom plane)
    ∧ ((rtrYDist plane area t1 point
          (decide (corner = Corner.NE ∨ corner = Corner.NW)) fuel).1
        ≤ rtrXDist t1 t2 point.p_x
            (decide (corner = Corner.NE ∨ corner = Corner.SE)) →
      rtrMarkChannel area plane t1 t2 point corner fuel
        = rtrMarkVert area plane point.p_x
            (point.p_y +
              if decide (corner = Corner.NE ∨ corner = Corner.NW) = true
              then (rtrYDist plane area t1 point
                  (decide (corner = Corner.NE ∨ corner = Corner.NW)) fuel).1
              else 0)
            (rtrYDist plane area t1 point
              (decide (corner = Corner.NE ∨ corner = Corner.NW)) fuel).2.1
            fuel) := by
  constructor
  · intro h
    unfold rtrMarkChannel
    dsimp only
    rw [if_pos h]
    have g1 := rtrMarkHoriz_fst_geom t1 t2 corner
    have g2 := rtrMarkHoriz_snd_geom t1 t2 corner
    rw [planeGeom_replace _ _ _ g1.1 g1.2.1 g1.2.2.1 g1.2.2.2.1 g1.2.2.2.2,
      planeGeom_replace _ _ _ g2.1 g2.2.1 g2.2.2.1 g2.2.2.2.1 g2.2.2.2.2]
  · intro h
    unfold rtrMarkChannel
    dsimp only
    rw [if_neg (not_lt.mpr h)]

/-- C1 witness: a corner with `xDist = 5 < yDist = 40` takes the
horizontal cut and leaves the plane geometry unchanged. -/
theorem c1_markChannel_dispatch_witness :
    planeGeom (rtrMarkChannel ⟨0, 0, 100, 50⟩
        [⟨0, 0, 10, 50, false, ⟨false, false, false, false⟩⟩,
         ⟨0, 0, 30, 10, false, ⟨false, false, false, false⟩⟩]
        ⟨0, 0, 10, 50, false, ⟨false, false, false, false⟩⟩
        ⟨0, 0, 30, 10, false, ⟨false, false, false, false⟩⟩ ⟨5, 10⟩ .NE 5)
      = planeGeom [⟨0, 0, 10, 50, false, ⟨false, false, false, false⟩⟩,
         ⟨0, 0, 30, 10, false, ⟨false, false, false, false⟩⟩] :=
  (c1_markChannel_dispatch ⟨0, 0, 100, 50⟩
      [⟨0, 0, 10, 50, false, ⟨false, false, false, false⟩⟩,
       ⟨0, 0, 30, 10, false, ⟨false, false, false, false⟩⟩]
      ⟨0, 0, 10, 50, false, ⟨false, false, false, false⟩⟩
      ⟨0, 0, 30, 10, false, ⟨false, false, false, false⟩⟩ ⟨5, 10⟩ .NE 5).1
    (by decide)

lemma rtrYFlag_eq_table (current next : Tile) (up : Bool) :
    rtrYFlag current next up = rtrYFlagTable current next up := by
  unfold rtrYFlag rtrYFlagTable
  by_cases h1 : current.left < next.left
  · by_cases h2 : next.right < current.right
    · simp [h1, h2]
    · simp [h1, h2]
  · simp [h1]

/-- C4 counterexample, in two parts.  First, the flag table of the claim
is wrong when `current` and `next` share their LEFT coordinate and `next`
extends strictly further right: the claim names the NE (up) flag of
`current`, but the source takes the `LEFT(current) < LEFT(next)`
else-branch and tests the NW flag of `current`.  Second, the returned
value is not always the distance accumulated to the boundary between
`current` and `next`: a downward walk from `exD1` (BOTTOM = 6) at
`(5, 9)` stops at a vertical boundary (the space tile below has LEFT = 5)
yet returns `4 = (9 - BOTTOM(current)) + 1`, one more than the distance 3
to that boundary, because the source breaks with
`p.p_y = BOTTOM(current) - 1` there. -/
theorem c4_flag_table_counterexample :
    ¬ c4FlagTableClaim
    ∧ (rtrYDist exDPlane exArea exD1 ⟨5, 9⟩ false 5).2.1 = exD1
    ∧ (TiSrPoint exDPlane ⟨5, exD1.bot - 1⟩).body = false
    ∧ (TiSrPoint exDPlane ⟨5, exD1.bot - 1⟩).left = 5
    ∧ (rtrYDist exDPlane exArea exD1 ⟨5, 9⟩ false 5).1 = (9 - exD1.bot) + 1 := by
  refine ⟨?_, by decide, by decide, by decide, by decide⟩
  intro h
  have h2 := (h ⟨0, 0, 10, 4, false, ⟨false, true, false, false⟩⟩
      ⟨0, 4, 20, 8, false, ⟨false, false, false, false⟩⟩ true).2.1
  exact absurd (h2 (by decide)) (by decide)

/-- When the loop body of `rtrYDist` breaks, the final `p.p_y` is
`TOP(current)` walking up, and walking down it is `BOTTOM(current)`
except at a vertical-boundary stop, where the source leaves it at
`BOTTOM(current) - 1`. -/
lemma rtrYDistStep_halt_py (plane : Plane) (area : Rect) (x : Int)
    (up : Bool) (current : Tile) (py : Int)
    (h : rtrYDistStep plane area x up current = YStep.halt py) :
    py = (if up = true then current.top
      else if rtrYDownVB plane area x current = true then current.bot - 1
      else current.bot) := by
  unfold rtrYDistStep at h
  cases up
  · simp only [Bool.false_eq_true, if_false] at h ⊢
    split_ifs at h with h1 h2 h3 h4
    · have hVB : ¬ (rtrYDownVB plane area x current = true) := by
        simp only [rtrYDownVB, decide_eq_true_eq]
        intro hc
        omega
      simp only [YStep.halt.injEq] at h
      rw [if_neg hVB]
      omega
    · have hVB : ¬ (rtrYDownVB plane area x current = true) := by
        simp only [rtrYDownVB, decide_eq_true_eq]
        intro hc
        exact absurd hc.2.1 (by simp [h2])
      simp only [YStep.halt.injEq] at h
      rw [if_neg hVB]
      omega
    · have hVB : rtrYDownVB plane area x current = true := by
        simp only [rtrYDownVB, decide_eq_true_eq]
        exact ⟨by omega, by simpa using h2, h3⟩
      simp only [YStep.halt.injEq] at h
      rw [if_pos hVB]
      omega
    · have hVB : ¬ (rtrYDownVB plane area x current = true) := by
        simp only [rtrYDownVB, decide_eq_true_eq]
        intro hc
        exact h3 hc.2.2
      simp only [YStep.halt.injEq] at h
      rw [if_neg hVB]
      omega
  · simp only [eq_self_iff_true, if_true] at h ⊢
    split_ifs at h with h1 h2 h3 h4 <;>
      (simp only [YStep.halt.injEq] at h; omega)

/-- A run of the `rtrYDist` loop whose result is stable under one more
unit of fuel has genuinely halted: the loop body at the final tile breaks
with exactly the returned `p.p_y`. -/
lemma rtrYDistGo_stable_halt (plane : Plane) (area : Rect) (x : Int)
    (up : Bool) :
    ∀ (fuel : Nat) (current : Tile) (py : Int) (vis : List Tile),
      rtrYDistGo plane area x up (fuel + 1) current py vis
        = rtrYDistGo plane area x up fuel current py vis →
      rtrYDistStep plane area x up
          (rtrYDistGo plane area x up fuel current py vis).2.1
        = YStep.halt (rtrYDistGo plane area x up fuel current py vis).1 := by
  intro fuel
  induction fuel with
  | zero =>
      intro c py vis h
      cases hs : rtrYDistStep plane area x up c with
      | halt py2 =>
          simp only [rtrYDistGo, hs] at h ⊢
          have hpy : py2 = py := by
            have := congrArg (fun r => r.1) h
            simpa using this
          rw [hpy]
      | step nxt =>
          simp only [rtrYDistGo, hs] at h
          have hlen := congrArg (fun r => r.2.2.length) h
          simp at hlen
  | succ n ih =>
      intro c py vis h
      cases hs : rtrYDistStep plane area x up c with
      | halt py2 =>
          simp only [rtrYDistGo, hs]
      | step nxt =>
          simp only [rtrYDistGo, hs] at h ⊢
          exact ih nxt _ (nxt :: vis) h

/-- C4 amended: the walk of `rtrYDist` continues from a tile exactly when
the route-area boundary is not reached, the next tile is a space tile
whose LEFT and RIGHT both differ from the column `x`, and the guarding
flag is clear; the guarding flag follows the table of the source: the
SW (up) or NW (down) flag of `next` when `next` is strictly narrower on
both sides, the NE (up) or SE (down) flag of `current` when
`LEFT(current) < LEFT(next)` otherwise, and the NW (up) or SW (down)
flag of `current` when `LEFT(next) ≤ LEFT(current)`.  A halted walk
returns the distance accumulated to the boundary between the final
`current` tile and `next` — `TOP(current) - p.y` walking up,
`p.y - BOTTOM(current)` walking down — except that a downward stop at a
vertical boundary returns one more than that distance. -/
theorem c4_ydist_stop (plane : Plane) (area : Rect) (point : Pt)
    (up : Bool) (tiles1 : Tile) (fuel : Nat) :
    (∀ current nxt : Tile,
      rtrYFlag current nxt up = rtrYFlagTable current nxt up)
    ∧ (∀ current : Tile,
      rtrYDistStep plane area point.p_x up current
        = YStep.step (TiSrPoint plane
            ⟨point.p_x, if up = true then current.top else current.bot - 1⟩)
      ↔ ((if up = true then current.top < area.r_ytop
            else area.r_ybot < current.bot)
        ∧ (TiSrPoint plane
            ⟨point.p_x,
              if up = true then current.top else current.bot - 1⟩).body
              = false
        ∧ (TiSrPoint plane
            ⟨point.p_x,
              if up = true then current.top else current.bot - 1⟩).left
              ≠ point.p_x
        ∧ (TiSrPoint plane
            ⟨point.p_x,
              if up = true then current.top else current.bot - 1⟩).right
              ≠ point.p_x
        ∧ rtrYFlagTable current
            (TiSrPoint plane
              ⟨point.p_x,
                if up = true then current.top else current.bot - 1⟩) up
              = false))
    ∧ (∀ (current : Tile) (py : Int),
      rtrYDistStep plane area point.p_x up current = YStep.halt py →
      py = (if up = true then current.top
        else if rtrYDownVB plane area point.p_x current = true
        then current.bot - 1 else current.bot))
    ∧ (rtrYDistGo plane area point.p_x up (fuel + 1) tiles1 point.p_y [tiles1]
        = rtrYDistGo plane area point.p_x up fuel tiles1 point.p_y [tiles1] →
      (rtrYDist plane area tiles1 point up fuel).1
        = (if up = true
          then (rtrYDistGo plane area point.p_x up fuel tiles1 point.p_y
              [tiles1]).2.1.top - point.p_y
          else point.p_y - (rtrYDistGo plane area point.p_x up fuel tiles1
              point.p_y [tiles1]).2.1.bot
            + (if rtrYDownVB plane area point.p_x
                (rtrYDistGo plane area point.p_x up fuel tiles1 point.p_y
                  [tiles1]).2.1 = true then 1 else 0))) := by
  refine ⟨fun current nxt => rtrYFlag_eq_table current nxt up, ?_, ?_, ?_⟩
  · intro current
    unfold rtrYDistStep
    cases up <;> dsimp only <;> split_ifs with h1 h2 h3 h4 <;>
      simp_all [rtrYFlag_eq_table] <;> omega
  · intro current py h
    exact rtrYDistStep_halt_py plane area point.p_x up current py h
  · intro hstab
    have hh := rtrYDistGo_stable_halt plane area point.p_x up fuel tiles1
      point.p_y [tiles1] hstab
    have h3 := rtrYDistStep_halt_py plane area point.p_x up _ _ hh
    unfold rtrYDist
    dsimp only
    cases up
    · simp only [Bool.false_eq_true, if_false] at h3 ⊢
      rw [h3]
      split_ifs <;> omega
    · simp only [if_true] at h3 ⊢
      omega

/-- C4 amended witness: a concrete step where all continuation conditions
hold and the walk advances, and a concrete fuel-stable upward walk whose
returned distance is `TOP(final current) - p.y = 6`. -/
theorem c4_ydist_stop_witness :
    rtrYDistStep exPlane exArea 5 true exT1 = YStep.step exT2
    ∧ (rtrYDist exPlane exArea exT1 ⟨5, 2⟩ true 10).1 = 6 := by
  constructor
  · exact ((c4_ydist_stop exPlane exArea ⟨5, 2⟩ true exT1 10).2.1 exT1).mpr
      (by decide)
  · have hd := (c4_ydist_stop exPlane exArea ⟨5, 2⟩ true exT1 10).2.2.2
      (by decide)
    revert hd
    decide

lemma rtrYDistGo_trace (plane : Plane) (area : Rect) (x : Int) (up : Bool) :
    ∀ (fuel : Nat) (current : Tile) (py : Int) (vis : List Tile),
      vis.head? = some current →
      ((rtrYDistGo plane area x up fuel current py vis).2.2.head?
          = some (rtrYDistGo plane area x up fuel current py vis).2.1
        ∧ (rtrYDistGo plane area x up fuel current py vis).2.2.getLast?
          = vis.getLast?) := by
  intro fuel
  induction fuel with
  | zero => intro current py vis hv; exact ⟨hv, rfl⟩
  | succ n ih =>
      intro current py vis hv
      simp only [rtrYDistGo]
      cases hs : rtrYDistStep plane area x up current with
      | halt py2 => exact ⟨hv, rfl⟩
      | step nxt =>
          have hrec := ih nxt (if up = true then current.top
            else current.bot - 1) (nxt :: vis) rfl
          refine ⟨hrec.1, ?_⟩
          rw [hrec.2]
          cases vis with
          | nil => cases hv
          | cons v vs => exact List.getLast?_cons_cons

/-- C6 counterexample: walking upward through two space tiles, the final
(top-most) tile reached is `exT2`, but `rtrYDist` stores the start tile
`exT1` into `tiles[0]`, so `tiles[0]` is not the top-most tile of an
upward walk. -/
theorem c6_tiles0_counterexample :
    ((rtrYDist exPlane exArea exT1 ⟨5, 2⟩ true 10).2.2).headD exT1 = exT2
    ∧ (rtrYDist exPlane exArea exT1 ⟨5, 2⟩ true 10).2.1 = exT1
    ∧ exT1 ≠ exT2
    ∧ exT1.top < exT2.top := by
  decide

/-- C6 amended: `tiles[0]` always receives the bottom-most tile of the
walked column: the start tile `tiles[1]` when walking upward, and the
final tile of the walk (the most recently visited) when walking
downward; the walk itself starts at `tiles[1]`. -/
theorem c6_tiles0 (plane : Plane) (area : Rect) (tiles1 : Tile) (point : Pt)
    (up : Bool) (fuel : Nat) :
    (rtrYDist plane area tiles1 point up fuel).2.1
      = (if up = true then tiles1
        else ((rtrYDist plane area tiles1 point up fuel).2.2).headD tiles1)
    ∧ ((rtrYDist plane area tiles1 point up fuel).2.2).getLast?
        = some tiles1 := by
  obtain ⟨h1, h2⟩ := rtrYDistGo_trace plane area point.p_x up fuel tiles1
    point.p_y [tiles1] rfl
  cases up
  · constructor
    · cases hr : (rtrYDistGo plane area point.p_x false fuel tiles1 point.p_y
          [tiles1]).2.2 with
      | nil => rw [hr] at h1; cases h1
      | cons a l =>
          rw [hr] at h1
          simp only [List.head?_cons, Option.some.injEq] at h1
          simp [rtrYDist, hr, h1]
    · simpa [rtrYDist] using h2
  · constructor
    · simp [rtrYDist]
    · simpa [rtrYDist] using h2

/-- C8: `rtrUseCorner` accepts a corner point lying in the closed route
area exactly when the point avoids the outer boundary, the spanning tile
is a space tile with no vertical edge at `point.p_x`, the side tile is a
space tile, and the flag of the side tile at the corner opposite the
obstruction corner (NE checks NW, NW checks NE, SE checks SW, SW checks
SE) is clear. -/
theorem c8_useCorner (area : Rect) (plane : Plane) (point : Pt)
    (corner : Corner)
    (hx1 : area.r_xbot ≤ point.p_x) (hx2 : point.p_x ≤ area.r_xtop)
    (hy1 : area.r_ybot ≤ point.p_y) (hy2 : point.p_y ≤ area.r_ytop) :
    rtrUseCorner area plane point corner = true
      ↔ ((point.p_x ≠ area.r_xbot ∧ point.p_x ≠ area.r_xtop
          ∧ point.p_y ≠ area.r_ybot ∧ point.p_y ≠ area.r_ytop)
        ∧ ((TiSrPoint plane (rtrCornerP0 point corner)).body = false
          ∧ (TiSrPoint plane (rtrCornerP0 point corner)).left ≠ point.p_x
          ∧ (TiSrPoint plane (rtrCornerP0 point corner)).right ≠ point.p_x)
        ∧ ((TiSrPoint plane (rtrCornerP1 point corner)).body = false
          ∧ rtrMARKED (TiSrPoint plane (rtrCornerP1 point corner))
              (rtrUseCornerFlag corner) = false)) := by
  unfold rtrUseCorner
  dsimp only
  split_ifs with h1 h2 h3
  · simp only [Bool.false_eq_true, false_iff]
    intro hc
    obtain ⟨⟨a1, a2, a3, a4⟩, -, -⟩ := hc
    rcases h1 with h | h | h | h <;> omega
  · simp only [Bool.false_eq_true, false_iff]
    intro hc
    obtain ⟨-, ⟨b1, b2, b3⟩, -⟩ := hc
    rcases h2 with h | h | h <;> simp_all
  · simp only [Bool.false_eq_true, false_iff]
    intro hc
    obtain ⟨-, -, ⟨d1, -⟩⟩ := hc
    simp_all
  · push_neg at h1 h2
    constructor
    · intro hm
      refine ⟨⟨by omega, by omega, by omega, by omega⟩,
        ⟨by simpa using h2.1, h2.2.1, h2.2.2⟩, ⟨by simpa using h3, ?_⟩⟩
      simpa using hm
    · intro hc
      simpa using hc.2.2.2

/-- C8 witness: a concrete eligible NE corner of an obstruction strictly
inside the route area. -/
theorem c8_useCorner_witness :
    rtrUseCorner ⟨0, 0, 30, 24⟩
      [⟨10, 10, 20, 14, true, ⟨true, true, true, true⟩⟩,
       ⟨0, 14, 30, 24, false, ⟨false, false, false, false⟩⟩,
       ⟨20, 10, 30, 14, false, ⟨false, false, false, false⟩⟩,
       ⟨0, 10, 10, 14, false, ⟨false, false, false, false⟩⟩,
       ⟨0, 0, 30, 10, false, ⟨false, false, false, false⟩⟩] ⟨20, 14⟩ .NE
      = true :=
  (c8_useCorner ⟨0, 0, 30, 24⟩
      [⟨10, 10, 20, 14, true, ⟨true, true, true, true⟩⟩,
       ⟨0, 14, 30, 24, false, ⟨false, false, false, false⟩⟩,
       ⟨20, 10, 30, 14, false, ⟨false, false, false, false⟩⟩,
       ⟨0, 10, 10, 14, false, ⟨false, false, false, false⟩⟩,
       ⟨0, 0, 30, 10, false, ⟨false, false, false, false⟩⟩] ⟨20, 14⟩ .NE
      (by decide) (by decide) (by decide) (by decide)).mpr (by decide)

lemma gridUp_ge (c o g : Int) (hg : g ≠ 0) : c ≤ gridUp c o g := by
  have h := Int.emod_nonneg (o - c) hg
  unfold gridUp
  omega

lemma gridUp_lt (c o g : Int) (hg : 0 < g) : gridUp c o g < c + g := by
  have h := Int.emod_lt_of_pos (o - c) hg
  unfold gridUp
  omega

lemma gridUp_canonical (c o g : Int) : ∃ k : Int, gridUp c o g = o + k * g := by
  refine ⟨-((o - c) / g), ?_⟩
  have h : (o - c) % g = o - c - g * ((o - c) / g) := Int.emod_def (o - c) g
  unfold gridUp
  rw [h]
  ring

/-- C10: `RtrDecompose` first rounds the area of the caller in place: the
rectangle the caller holds afterwards is `rtrRoundArea` of the input
(also on the NULL path, since the returned pair always carries it), it
contains the original rectangle, and each of its four sides lies on a
canonical half-grid offset `origin + k*g - g/2`. -/
theorem c10_area_rounding (g ox oy : Int) (area : Rect) (hg : 1 ≤ g) :
    (RtrDecompose g ox oy area).1 = rtrRoundArea g ox oy area
    ∧ ((rtrRoundArea g ox oy area).r_xbot ≤ area.r_xbot
      ∧ (rtrRoundArea g ox oy area).r_ybot ≤ area.r_ybot
      ∧ area.r_xtop ≤ (rtrRoundArea g ox oy area).r_xtop
      ∧ area.r_ytop ≤ (rtrRoundArea g ox oy area).r_ytop)
    ∧ (∃ k : Int, (rtrRoundArea g ox oy area).r_xtop = ox + k * g - g / 2)
    ∧ (∃ k : Int, (rtrRoundArea g ox oy area).r_xbot = ox + k * g - g / 2)
    ∧ (∃ k : Int, (rtrRoundArea g ox oy area).r_ytop = oy + k * g - g / 2)
    ∧ (∃ k : Int, (rtrRoundArea g ox oy area).r_ybot = oy + k * g - g / 2) := by
  have hne : g ≠ 0 := by omega
  have hpos : 0 < g := by omega
  refine ⟨rfl, ⟨?_, ?_, ?_, ?_⟩, ?_, ?_, ?_, ?_⟩
  · have u1 := gridUp_ge area.r_xbot ox g hne
    have u2 := gridUp_lt area.r_xbot ox g hpos
    unfold rtrRoundArea
    dsimp only
    split_ifs <;> omega
  · have u1 := gridUp_ge area.r_ybot oy g hne
    have u2 := gridUp_lt area.r_ybot oy g hpos
    unfold rtrRoundArea
    dsimp only
    split_ifs <;> omega
  · have u1 := gridUp_ge area.r_xtop ox g hne
    have u2 := gridUp_lt area.r_xtop ox g hpos
    unfold rtrRoundArea
    dsimp only
    split_ifs <;> omega
  · have u1 := gridUp_ge area.r_ytop oy g hne
    have u2 := gridUp_lt area.r_ytop oy g hpos
    unfold rtrRoundArea
    dsimp only
    split_ifs <;> omega
  · obtain ⟨k, hk⟩ := gridUp_canonical area.r_xtop ox g
    unfold rtrRoundArea
    dsimp only
    split_ifs
    · exact ⟨k + 1, by rw [hk]; ring⟩
    · exact ⟨k, by rw [hk]⟩
  · obtain ⟨k, hk⟩ := gridUp_canonical area.r_xbot ox g
    unfold rtrRoundArea
    dsimp only
    split_ifs
    · exact ⟨k - 1, by rw [hk]; ring⟩
    · exact ⟨k, by rw [hk]⟩
  · obtain ⟨k, hk⟩ := gridUp_canonical area.r_ytop oy g
    unfold rtrRoundArea
    dsimp only
    split_ifs
    · exact ⟨k + 1, by rw [hk]; ring⟩
    · exact ⟨k, by rw [hk]⟩
  · obtain ⟨k, hk⟩ := gridUp_canonical area.r_ybot oy g
    unfold rtrRoundArea
    dsimp only
    split_ifs
    · exact ⟨k - 1, by rw [hk]; ring⟩
    · exact ⟨k, by rw [hk]⟩

/-- C10 witness: at grid 10 and origin (0,0) the area (0,0)-(100,100)
rounds to the rectangle the pair carries, and its left side does not move
right. -/
theorem c10_area_rounding_witness :
    (RtrDecompose 10 0 0 ⟨0, 0, 100, 100⟩).1 = rtrRoundArea 10 0 0 ⟨0, 0, 100, 100⟩
    ∧ (rtrRoundArea 10 0 0 ⟨0, 0, 100, 100⟩).r_xbot
        ≤ (⟨0, 0, 100, 100⟩ : Rect).r_xbot :=
  ⟨(c10_area_rounding 10 0 0 ⟨0, 0, 100, 100⟩ (by decide)).1,
   (c10_area_rounding 10 0 0 ⟨0, 0, 100, 100⟩ (by decide)).2.1.1⟩

end Rtr
